import Mathlib

/-!
Shallow embedding of the GitHub authorization provider
(cmd/frontend/internal/authz/github/github.go, fullest revision: the one with
the explicit-access cache, the public-visibility cache and the merge logic)
and theorems about its permission-resolution algorithm RepoPerms together
with its helpers publicRepos, getCachedPublicRepos, setCachedPublicRepos,
fetchPublicRepos, getCachedExplicitRepos, setCachedExplicitRepos and
fetchUserExplicitRepos.

Go maps are modelled as duplicate-free association lists, the pcache
interface as an explicit record of operations over an abstract store type,
and every effectful call (remote client calls, cache operations) is counted
in an explicit trace that the functions thread through.
-/

namespace GithubAuthz

/-- One permission kind; the code only ever grants authz.Read. -/
inductive Perm where
  | read
deriving DecidableEq

/-- Payloads held by the permission cache, as produced by json.Marshal of
cacheVal (fields ProjIDs, TTL) and publicRepoCacheVal (fields Public, TTL).
The TTL field mirrors time.Duration as a number. -/
inductive CacheVal where
  | explicitVal (projIDs : List String) (ttl : Nat)
  | publicVal (isPublic : Bool) (ttl : Nat)
deriving DecidableEq

/-- Errors of the resolution path: the fmt.Errorf of getCachedPublicRepos
(number of cache items did not match number of keys) and the errors.New of
fetchUserExplicitRepos (no access token found for user). -/
inductive Err where
  | countMismatch
  | missingCredential
deriving DecidableEq

/-- github.Repository, reduced to the fields the provider reads. -/
structure Repository where
  id : String
  isPrivate : Bool
deriving DecidableEq

/-- api.ExternalRepoSpec as used through repo.ExternalRepoSpec. -/
structure ExternalRepoSpec where
  id : String
  serviceType : String
  serviceID : String
deriving DecidableEq

/-- authz.Repo: the local repository name plus its external repo spec. -/
structure Repo where
  repoName : String
  externalRepoSpec : ExternalRepoSpec
deriving DecidableEq

/-- extsvc.ExternalAccount, reduced to what the provider reads.
Modelled from the spec: the credential extractor
(github.GetExternalAccountData, whose body is not among the embedded
sources) yields the optional access token of the account; token = none
models a nil token struct and token = some t a token whose AccessToken
field is t. -/
structure Account where
  accountID : String
  token : Option String
deriving DecidableEq

/-- The remote GitHub host as the pure state the client answers from: the
pages served by ListViewerRepositories and the repository returned by
GetRepositoryByNodeID for each node ID.  Remote calls are modelled as
always succeeding; transport failures live outside the embedded state. -/
structure Remote where
  pages : List (List Repository)
  repoByNodeID : String → Repository

/-- Counts of the effectful calls a resolution performs. -/
structure Trace where
  listViewerCalls : Nat
  getRepoCalls : Nat
  cacheGets : Nat
  cacheSets : Nat
  cacheGetMultis : Nat
  cacheSetMultis : Nat
deriving DecidableEq

def Trace.zero : Trace := ⟨0, 0, 0, 0, 0, 0⟩

def Trace.incGet (t : Trace) : Trace :=
  ⟨t.listViewerCalls, t.getRepoCalls, t.cacheGets + 1, t.cacheSets,
    t.cacheGetMultis, t.cacheSetMultis⟩

def Trace.incSet (t : Trace) : Trace :=
  ⟨t.listViewerCalls, t.getRepoCalls, t.cacheGets, t.cacheSets + 1,
    t.cacheGetMultis, t.cacheSetMultis⟩

def Trace.incGetMulti (t : Trace) : Trace :=
  ⟨t.listViewerCalls, t.getRepoCalls, t.cacheGets, t.cacheSets,
    t.cacheGetMultis + 1, t.cacheSetMultis⟩

def Trace.incSetMulti (t : Trace) : Trace :=
  ⟨t.listViewerCalls, t.getRepoCalls, t.cacheGets, t.cacheSets,
    t.cacheGetMultis, t.cacheSetMultis + 1⟩

def Trace.incGetRepo (t : Trace) : Trace :=
  ⟨t.listViewerCalls, t.getRepoCalls + 1, t.cacheGets, t.cacheSets,
    t.cacheGetMultis, t.cacheSetMultis⟩

def Trace.addListViewer (t : Trace) (n : Nat) : Trace :=
  ⟨t.listViewerCalls + n, t.getRepoCalls, t.cacheGets, t.cacheSets,
    t.cacheGetMultis, t.cacheSetMultis⟩

/-- Lookup in an association list modelling a Go map keyed by strings. -/
def mlookup {β : Type} : List (String × β) → String → Option β
  | [], _ => none
  | (k, v) :: rest, key => if k = key then some v else mlookup rest key

/-- Insert-or-overwrite in an association list modelling a Go map. -/
def mupsert {β : Type} : List (String × β) → String → β → List (String × β)
  | [], key, v => [(key, v)]
  | (k, w) :: rest, key, v =>
      if k = key then (key, v) :: rest else (k, w) :: mupsert rest key v

/-- Set insertion, modelling insertion into a map used as a set. -/
def sinsert (s : List String) (k : String) : List String :=
  if k ∈ s then s else s ++ [k]

theorem mlookup_mupsert_self {β : Type} (m : List (String × β)) (k : String) (v : β) :
    mlookup (mupsert m k v) k = some v := by
  induction m with
  | nil => simp [mupsert, mlookup]
  | cons p rest ih =>
    by_cases h : p.1 = k
    · simp [mupsert, h, mlookup]
    · simp [mupsert, h, mlookup, ih]

theorem mlookup_mupsert_ne {β : Type} (m : List (String × β)) (k k' : String) (v : β)
    (h : k' ≠ k) : mlookup (mupsert m k v) k' = mlookup m k' := by
  have hne : ¬k = k' := fun hk => h hk.symm
  induction m with
  | nil => simp [mupsert, mlookup, hne]
  | cons p rest ih =>
    obtain ⟨pk, pv⟩ := p
    by_cases hp : pk = k
    · subst hp
      simp [mupsert, mlookup, hne]
    · simp [mupsert, mlookup, hp, ih]

theorem mem_mupsert {β : Type} (m : List (String × β)) (k : String) (v : β) (e : String × β)
    (he : e ∈ mupsert m k v) : e = (k, v) ∨ e ∈ m := by
  induction m with
  | nil => simpa [mupsert] using he
  | cons p rest ih =>
    by_cases hp : p.1 = k
    · simp only [mupsert, hp, if_pos] at he
      rcases List.mem_cons.mp he with h | h
      · exact Or.inl h
      · exact Or.inr (List.mem_cons_of_mem p h)
    · simp only [mupsert, hp, if_neg, not_false_iff] at he
      rcases List.mem_cons.mp he with h | h
      · exact Or.inr (h ▸ List.mem_cons_self p rest)
      · rcases ih h with h2 | h2
        · exact Or.inl h2
        · exact Or.inr (List.mem_cons_of_mem p h2)

/-- The pcache interface of the provider: single and batch get and set plus
delete, over an abstract store type.  The provider is written against this
interface; the honest list-backed implementation below models the real
TTL-bounded store, and theorems about misbehaving batch reads quantify over
other implementations. -/
structure PCacheImpl (σ : Type) where
  get : σ → String → Option CacheVal
  set : σ → String → CacheVal → σ
  getMulti : σ → List String → List (Option CacheVal)
  setMulti : σ → List (String × CacheVal) → σ
  delete : σ → String → σ

/-- The honest key-value store: an association list, batch operations done
key by key in order (exactly one result slot per requested key). -/
def listCache : PCacheImpl (List (String × CacheVal)) where
  get := fun st k => mlookup st k
  set := fun st k v => mupsert st k v
  getMulti := fun st keys => keys.map (mlookup st)
  setMulti := fun st kvs => kvs.foldl (fun a kv => mupsert a kv.1 kv.2) st
  delete := fun st k => st.eraseP (fun p => decide (p.1 = k))

/-- The Provider fields the resolution code reads: the cache, the configured
cache TTL, and the code host identity used to partition candidates. -/
structure Provider (σ : Type) where
  cache : PCacheImpl σ
  cacheTTL : Nat
  serviceType : String
  serviceID : String

/-- A Provider over the honest list-backed cache. -/
def listProvider (ttl : Nat) (stype sid : String) :
    Provider (List (String × CacheVal)) :=
  ⟨listCache, ttl, stype, sid⟩

/-- Go default formatting of an api.ExternalRepoSpec value under the fmt
verb for strings: braces around the space-separated fields. -/
def fmtExternalRepoSpec (s : ExternalRepoSpec) : String :=
  "\x7b" ++ s.id ++ " " ++ s.serviceType ++ " " ++ s.serviceID ++ "\x7d"

/-- Go default formatting of a whole authz.Repo value under the fmt verb for
strings.  getCachedPublicRepos formats the whole Repo value (the Sprintf at
its call site receives r, not r.ExternalRepoSpec.ID), so the read key of the
visibility cache is derived from this string. -/
def fmtRepo (r : Repo) : String :=
  "\x7b" ++ r.repoName ++ " " ++ fmtExternalRepoSpec r.externalRepoSpec ++ "\x7d"

/-- json.Unmarshal of a stored payload into cacheVal, with the lenient Go
semantics: a payload of the other shape contributes a nil ProjIDs map. -/
def unmarshalCacheVal : CacheVal → List String × Nat
  | .explicitVal ids ttl => (ids, ttl)
  | .publicVal _ ttl => ([], ttl)

/-- json.Unmarshal of a stored payload into publicRepoCacheVal, with the
lenient Go semantics: a payload of the other shape contributes Public =
false. -/
def unmarshalPublicVal : CacheVal → Bool × Nat
  | .explicitVal _ ttl => (false, ttl)
  | .publicVal p ttl => (p, ttl)

/-- One ListViewerRepositories call: the repositories of the requested page
and the hasNextPage flag. -/
def listViewerCall (remote : Remote) (page : Nat) : List Repository × Bool :=
  (remote.pages.getD (page - 1) [], page < remote.pages.length)

/-- The pagination loop of fetchUserExplicitRepos: accumulate pages starting
at the given page until hasNextPage is false, also counting the calls made.
The fuel argument bounds the recursion; remote.pages.length + 1 is always
enough because hasNextPage is false from page remote.pages.length on. -/
def fetchPages (remote : Remote) : Nat → Nat → List Repository × Nat
  | _, 0 => ([], 0)
  | page, fuel + 1 =>
    let call := listViewerCall remote page
    if call.2 then
      let rest := fetchPages remote (page + 1) fuel
      (call.1 ++ rest.1, rest.2 + 1)
    else (call.1, 1)

/-- fetchUserExplicitRepos: require a usable access token, then page through
ListViewerRepositories from page 1. -/
def fetchUserExplicitRepos (remote : Remote) (acct : Account) (tr : Trace) :
    Except Err (List Repository) × Trace :=
  match acct.token with
  | none => (.error .missingCredential, tr)
  | some t =>
    if t = "" then (.error .missingCredential, tr)
    else
      let fp := fetchPages remote 1 (remote.pages.length + 1)
      (.ok fp.1, tr.addListViewer fp.2)

/-- githubRepoIDs: collect the set of repository IDs of the fetched list. -/
def githubRepoIDs (repos : List Repository) : List String :=
  repos.foldl (fun s r => sinsert s r.id) []

/-- getCachedExplicitRepos: a single cache Get under the key u:AccountID;
a present entry is deserialized and returned with no check of the stored
TTL (the source marks that check as a TODO and does not perform it). -/
def getCachedExplicitRepos {σ : Type} (p : Provider σ) (st : σ) (tr : Trace)
    (acct : Account) : Option (List String) × Trace :=
  match p.cache.get st ("u:" ++ acct.accountID) with
  | none => (none, tr.incGet)
  | some v => (some (unmarshalCacheVal v).1, tr.incGet)

/-- setCachedExplicitRepos: marshal the ID set with the configured TTL and
Set it under u:AccountID.  The wE flag models whether serialization
succeeds; on failure the Go code returns the error before calling Set, and
the caller discards that error. -/
def setCachedExplicitRepos {σ : Type} (p : Provider σ) (wE : Bool) (st : σ)
    (tr : Trace) (acct : Account) (ids : List String) : σ × Trace :=
  if wE then
    (p.cache.set st ("u:" ++ acct.accountID)
      (.explicitVal ids p.cacheTTL), tr.incSet)
  else (st, tr)

/-- The explicit-access phase of RepoPerms (its first half): use the cached
set when present, otherwise fetch the full list from the remote host, cache
its ID set (discarding the cache-write error) and return it. -/
def resolveExplicit {σ : Type} (p : Provider σ) (remote : Remote) (wE : Bool)
    (st : σ) (tr : Trace) (acct : Account) :
    Except Err (List String) × σ × Trace :=
  let gc := getCachedExplicitRepos p st tr acct
  match gc.1 with
  | some ids => (.ok ids, st, gc.2)
  | none =>
    match fetchUserExplicitRepos remote acct gc.2 with
    | (.error e, tr2) => (.error e, st, tr2)
    | (.ok ghRepos, tr2) =>
      let ids := githubRepoIDs ghRepos
      let sc := setCachedExplicitRepos p wE st tr2 acct ids
      (.ok ids, sc.1, sc.2)

/-- The batch-read keys of getCachedPublicRepos: one per candidate, built by
formatting the whole Repo value after the r: tag. -/
def getArgsOf (repos : List Repo) : List String :=
  repos.map (fun r => "r:" ++ fmtRepo r)

/-- The positional list of remote IDs getCachedPublicRepos keeps alongside
the batch-read keys. -/
def repoListOf (repos : List Repo) : List String :=
  repos.map (fun r => r.externalRepoSpec.id)

/-- getCachedPublicRepos: batch-read one key per candidate, fail when the
number of returned slots differs from the number of candidates, and collect
the deserialized Public flags of the non-nil slots keyed by remote ID. -/
def getCachedPublicRepos {σ : Type} (p : Provider σ) (st : σ) (tr : Trace)
    (repos : List Repo) : Except Err (List (String × Bool)) × Trace :=
  if repos.length = 0 then (.ok [], tr)
  else
    let vals := p.cache.getMulti st (getArgsOf repos)
    let tr2 := tr.incGetMulti
    if vals.length ≠ repos.length then (.error .countMismatch, tr2)
    else
      (.ok (((repoListOf repos).zip vals).foldl
        (fun m pair =>
          match pair.2 with
          | none => m
          | some v => mupsert m pair.1 (unmarshalPublicVal v).1) []), tr2)

/-- setCachedPublicRepos: marshal each (ID, Public) pair with the configured
TTL under the key r:ID and SetMulti them.  The wP flag models whether
serialization succeeds; on failure the Go code returns before calling
SetMulti, and the caller discards that error. -/
def setCachedPublicRepos {σ : Type} (p : Provider σ) (wP : Bool) (st : σ)
    (tr : Trace) (isPublic : List (String × Bool)) : σ × Trace :=
  if wP then
    (p.cache.setMulti st
      (isPublic.map (fun kv => ("r:" ++ kv.1, CacheVal.publicVal kv.2 p.cacheTTL))),
      tr.incSetMulti)
  else (st, tr)

/-- fetchPublicRepos: one GetRepositoryByNodeID call per requested ID; a
repository is public when IsPrivate is false. -/
def fetchPublicRepos (remote : Remote) (tr : Trace) (ids : List String) :
    List (String × Bool) × Trace :=
  ids.foldl
    (fun acc id =>
      (mupsert acc.1 id (!(remote.repoByNodeID id).isPrivate), acc.2.incGetRepo))
    ([], tr)

/-- publicRepos: read the visibility cache for all candidates; if it already
covers them, return it; otherwise fetch the visibility of the candidates
with no cache hit, write those back (discarding the cache-write error) and
return the merged map. -/
def publicRepos {σ : Type} (p : Provider σ) (remote : Remote) (wP : Bool)
    (st : σ) (tr : Trace) (repos : List Repo) :
    Except Err (List (String × Bool)) × σ × Trace :=
  let gc := getCachedPublicRepos p st tr repos
  match gc.1 with
  | .error e => (.error e, st, gc.2)
  | .ok cachedIsPublic =>
    if repos.length ≤ cachedIsPublic.length then (.ok cachedIsPublic, st, gc.2)
    else
      let missing := repos.foldl
        (fun s r =>
          if mlookup cachedIsPublic r.externalRepoSpec.id = none then
            sinsert s r.externalRepoSpec.id
          else s) []
      let fp := fetchPublicRepos remote gc.2 missing
      let sc := setCachedPublicRepos p wP st fp.2 fp.1
      (.ok (fp.1.foldl (fun m kv => mupsert m kv.1 kv.2) cachedIsPublic),
        sc.1, sc.2)

/-- The permission map RepoPerms returns: local repository name to granted
permission kinds. -/
abbrev Perms := List (String × List (Perm × Bool))

/-- The permission value every grant writes: Read maps to true. -/
def readTrue : List (Perm × Bool) := [(Perm.read, true)]

/-- Modelled from the spec: the code-host partitioner
(authz.GetCodeHostRepos, whose body is not among the embedded sources)
splits candidates by host ownership; a candidate is owned by this provider
when its external service type and service ID match the configured host. -/
def ownedBy {σ : Type} (p : Provider σ) (r : Repo) : Bool :=
  r.externalRepoSpec.serviceType == p.serviceType &&
    r.externalRepoSpec.serviceID == p.serviceID

/-- The candidates this provider is responsible for, in candidate order. -/
def mineOf {σ : Type} (p : Provider σ) (repos : List Repo) : List Repo :=
  repos.filter (fun r => ownedBy p r)

/-- One step of the explicit-grant loop of RepoPerms: an owned candidate in
the explicit set is granted Read, any other owned candidate goes to the
non-explicit bucket. -/
def geStep (explicitRepos : List String) (acc : Perms × List Repo) (r : Repo) :
    Perms × List Repo :=
  if r.externalRepoSpec.id ∈ explicitRepos then
    (mupsert acc.1 r.repoName readTrue, acc.2)
  else (acc.1, acc.2 ++ [r])

/-- The explicit-grant loop of RepoPerms over the owned candidates. -/
def grantExplicitFold (explicitRepos : List String) (mine : List Repo) :
    Perms × List Repo :=
  mine.foldl (geStep explicitRepos) ([], [])

/-- One step of the public-grant loop of RepoPerms: a bucket candidate whose
remote ID maps to true in the visibility result is granted Read; a missing
entry counts as false, as a Go map index does. -/
def gpStep (pub : List (String × Bool)) (m : Perms) (r : Repo) : Perms :=
  if (mlookup pub r.externalRepoSpec.id).getD false = true then
    mupsert m r.repoName readTrue
  else m

/-- The public-grant loop of RepoPerms over the non-explicit bucket. -/
def grantPublicFold (pub : List (String × Bool)) (bucket : List Repo)
    (perms : Perms) : Perms :=
  bucket.foldl (gpStep pub) perms

/-- RepoPerms: resolve the explicit-access set, grant Read to owned
candidates in it, and if any owned candidates remain, grant Read to those
the visibility resolver reports public.  Returns the permission map (or the
error that aborted resolution), the final cache state and the call trace. -/
def RepoPerms {σ : Type} (p : Provider σ) (remote : Remote) (wE wP : Bool)
    (st : σ) (tr : Trace) (acct : Account) (repos : List Repo) :
    Except Err Perms × σ × Trace :=
  let re := resolveExplicit p remote wE st tr acct
  match re.1 with
  | .error e => (.error e, re.2.1, re.2.2)
  | .ok explicitRepos =>
    let ge := grantExplicitFold explicitRepos (mineOf p repos)
    if 0 < ge.2.length then
      let pr := publicRepos p remote wP re.2.1 re.2.2 ge.2
      match pr.1 with
      | .error e => (.error e, pr.2.1, pr.2.2)
      | .ok pub => (.ok (grantPublicFold pub ge.2 ge.1), pr.2.1, pr.2.2)
    else (.ok ge.1, re.2.1, re.2.2)

theorem repoPerms_of_explicitErr {σ : Type} (p : Provider σ) (remote : Remote)
    (wE wP : Bool) (st : σ) (tr : Trace) (acct : Account) (repos : List Repo)
    (e : Err) (st1 : σ) (tr1 : Trace)
    (hre : resolveExplicit p remote wE st tr acct = (.error e, st1, tr1)) :
    RepoPerms p remote wE wP st tr acct repos = (.error e, st1, tr1) := by
  simp [RepoPerms, hre]

theorem repoPerms_of_bucketEmpty {σ : Type} (p : Provider σ) (remote : Remote)
    (wE wP : Bool) (st : σ) (tr : Trace) (acct : Account) (repos : List Repo)
    (E : List String) (st1 : σ) (tr1 : Trace)
    (hre : resolveExplicit p remote wE st tr acct = (.ok E, st1, tr1))
    (hb : ¬0 < (grantExplicitFold E (mineOf p repos)).2.length) :
    RepoPerms p remote wE wP st tr acct repos =
      (.ok (grantExplicitFold E (mineOf p repos)).1, st1, tr1) := by
  simp [RepoPerms, hre, hb]

theorem repoPerms_of_publicOk {σ : Type} (p : Provider σ) (remote : Remote)
    (wE wP : Bool) (st : σ) (tr : Trace) (acct : Account) (repos : List Repo)
    (E : List String) (st1 : σ) (tr1 : Trace) (pub : List (String × Bool))
    (st2 : σ) (tr2 : Trace)
    (hre : resolveExplicit p remote wE st tr acct = (.ok E, st1, tr1))
    (hb : 0 < (grantExplicitFold E (mineOf p repos)).2.length)
    (hpr : publicRepos p remote wP st1 tr1 (grantExplicitFold E (mineOf p repos)).2 =
      (.ok pub, st2, tr2)) :
    RepoPerms p remote wE wP st tr acct repos =
      (.ok (grantPublicFold pub (grantExplicitFold E (mineOf p repos)).2
        (grantExplicitFold E (mineOf p repos)).1), st2, tr2) := by
  simp [RepoPerms, hre, hb, hpr]

theorem repoPerms_of_publicErr {σ : Type} (p : Provider σ) (remote : Remote)
    (wE wP : Bool) (st : σ) (tr : Trace) (acct : Account) (repos : List Repo)
    (E : List String) (st1 : σ) (tr1 : Trace) (e : Err) (st2 : σ) (tr2 : Trace)
    (hre : resolveExplicit p remote wE st tr acct = (.ok E, st1, tr1))
    (hb : 0 < (grantExplicitFold E (mineOf p repos)).2.length)
    (hpr : publicRepos p remote wP st1 tr1 (grantExplicitFold E (mineOf p repos)).2 =
      (.error e, st2, tr2)) :
    RepoPerms p remote wE wP st tr acct repos = (.error e, st2, tr2) := by
  simp [RepoPerms, hre, hb, hpr]

theorem geFold_lookup_pres (E : List String) (n : String) :
    ∀ (mine : List Repo) (acc : Perms × List Repo),
      mlookup acc.1 n = some readTrue →
      mlookup (mine.foldl (geStep E) acc).1 n = some readTrue := by
  intro mine
  induction mine with
  | nil => intro acc h; simpa using h
  | cons a rest ih =>
    intro acc h
    simp only [List.foldl_cons]
    apply ih
    by_cases ha : a.externalRepoSpec.id ∈ E
    · by_cases hn : a.repoName = n
      · simp [geStep, ha, hn, mlookup_mupsert_self]
      · simpa [geStep, ha, mlookup_mupsert_ne _ _ _ _ (fun hk => hn hk.symm)] using h
    · simpa [geStep, ha] using h

theorem geFold_lookup_some (E : List String) (r : Repo) :
    ∀ (mine : List Repo) (acc : Perms × List Repo), r ∈ mine →
      r.externalRepoSpec.id ∈ E →
      mlookup (mine.foldl (geStep E) acc).1 r.repoName = some readTrue := by
  intro mine
  induction mine with
  | nil => intro acc h; cases h
  | cons a rest ih =>
    intro acc hmem hid
    rcases List.mem_cons.mp hmem with h | h
    · subst h
      simp only [List.foldl_cons]
      apply geFold_lookup_pres
      simp [geStep, hid, mlookup_mupsert_self]
    · exact ih _ h hid

theorem geFold_lookup_none (E : List String) (n : String) :
    ∀ (mine : List Repo) (acc : Perms × List Repo),
      (∀ r ∈ mine, r.repoName = n → r.externalRepoSpec.id ∉ E) →
      mlookup acc.1 n = none →
      mlookup (mine.foldl (geStep E) acc).1 n = none := by
  intro mine
  induction mine with
  | nil => intro acc _ h; simpa using h
  | cons a rest ih =>
    intro acc hall h
    simp only [List.foldl_cons]
    apply ih
    · intro r hr hn
      exact hall r (List.mem_cons_of_mem a hr) hn
    · by_cases ha : a.externalRepoSpec.id ∈ E
      · have hn : a.repoName ≠ n := by
          intro hn
          exact hall a (List.mem_cons_self a rest) hn ha
        simpa [geStep, ha, mlookup_mupsert_ne _ _ _ _ (fun hk => hn hk.symm)] using h
      · simpa [geStep, ha] using h

theorem geFold_bucket (E : List String) :
    ∀ (mine : List Repo) (acc : Perms × List Repo),
      (mine.foldl (geStep E) acc).2 =
        acc.2 ++ mine.filter (fun r => decide (r.externalRepoSpec.id ∉ E)) := by
  intro mine
  induction mine with
  | nil => intro acc; simp
  | cons a rest ih =>
    intro acc
    by_cases ha : a.externalRepoSpec.id ∈ E
    · simp [geStep, ha, ih, List.filter_cons]
    · simp [geStep, ha, ih, List.filter_cons]

theorem gpFold_lookup_pres (pub : List (String × Bool)) (n : String) :
    ∀ (bucket : List Repo) (m : Perms),
      mlookup m n = some readTrue →
      mlookup (bucket.foldl (gpStep pub) m) n = some readTrue := by
  intro bucket
  induction bucket with
  | nil => intro m h; simpa using h
  | cons a rest ih =>
    intro m h
    simp only [List.foldl_cons]
    apply ih
    by_cases ha : (mlookup pub a.externalRepoSpec.id).getD false = true
    · by_cases hn : a.repoName = n
      · simp [gpStep, ha, hn, mlookup_mupsert_self]
      · simpa [gpStep, ha, mlookup_mupsert_ne _ _ _ _ (fun hk => hn hk.symm)] using h
    · simpa [gpStep, ha] using h

theorem gpFold_lookup_some (pub : List (String × Bool)) (r : Repo) :
    ∀ (bucket : List Repo) (m : Perms), r ∈ bucket →
      (mlookup pub r.externalRepoSpec.id).getD false = true →
      mlookup (bucket.foldl (gpStep pub) m) r.repoName = some readTrue := by
  intro bucket
  induction bucket with
  | nil => intro m h; cases h
  | cons a rest ih =>
    intro m hmem hpubv
    rcases List.mem_cons.mp hmem with h | h
    · subst h
      simp only [List.foldl_cons]
      apply gpFold_lookup_pres
      simp [gpStep, hpubv, mlookup_mupsert_self]
    · exact ih _ h hpubv

theorem gpFold_lookup_none (pub : List (String × Bool)) (n : String) :
    ∀ (bucket : List Repo) (m : Perms),
      (∀ r ∈ bucket, r.repoName = n →
        (mlookup pub r.externalRepoSpec.id).getD false ≠ true) →
      mlookup m n = none →
      mlookup (bucket.foldl (gpStep pub) m) n = none := by
  intro bucket
  induction bucket with
  | nil => intro m _ h; simpa using h
  | cons a rest ih =>
    intro m hall h
    simp only [List.foldl_cons]
    apply ih
    · intro r hr hn
      exact hall r (List.mem_cons_of_mem a hr) hn
    · by_cases ha : (mlookup pub a.externalRepoSpec.id).getD false = true
      · have hn : a.repoName ≠ n := by
          intro hn
          exact hall a (List.mem_cons_self a rest) hn ha
        simpa [gpStep, ha, mlookup_mupsert_ne _ _ _ _ (fun hk => hn hk.symm)] using h
      · simpa [gpStep, ha] using h

theorem nodupMapInj {α β : Type} (f : α → β) :
    ∀ (l : List α), (l.map f).Nodup → ∀ a ∈ l, ∀ b ∈ l, f a = f b → a = b := by
  intro l
  induction l with
  | nil => intro _ a ha; cases ha
  | cons c rest ih =>
    intro hd a ha b hb hf
    rw [List.map_cons, List.nodup_cons] at hd
    rcases List.mem_cons.mp ha with h1 | h1 <;> rcases List.mem_cons.mp hb with h2 | h2
    · exact h1.trans h2.symm
    · subst h1
      have hmem : f b ∈ rest.map f := List.mem_map_of_mem f h2
      rw [← hf] at hmem
      exact absurd hmem hd.1
    · subst h2
      have hmem : f a ∈ rest.map f := List.mem_map_of_mem f h1
      rw [hf] at hmem
      exact absurd hmem hd.1
    · exact ih hd.2 a h1 b h2 hf

/-- Shared concrete inputs for the closed theorems below. -/
def ghHost : String := "https://github.com/"

def P0 : Provider (List (String × CacheVal)) := listProvider 60 "github" ghHost

/-- A remote host on which every repository is public and the account has no
repositories of its own (one empty page). -/
def remotePublic : Remote := ⟨[[]], fun id => ⟨id, false⟩⟩

/-- A remote host on which exactly the repository with node ID C is private. -/
def remoteBC : Remote := ⟨[[]], fun id => ⟨id, id == "C"⟩⟩

def acctAlice : Account := ⟨"alice", some "tok"⟩

def acctNoTok : Account := ⟨"alice", none⟩

def repoA : Repo := ⟨"a", ⟨"A", "github", ghHost⟩⟩

def repoB : Repo := ⟨"b", ⟨"B", "github", ghHost⟩⟩

def repoC : Repo := ⟨"c", ⟨"C", "github", ghHost⟩⟩

def repoX : Repo := ⟨"x", ⟨"X", "github", ghHost⟩⟩

/-- A cache holding an explicit-access entry for alice whose stored TTL is
zero, hence stale against any clock. -/
def staleStore : List (String × CacheVal) := [("u:alice", .explicitVal ["X"] 0)]

/-- A cache holding an explicit-access entry for alice with the set A. -/
def expStore : List (String × CacheVal) := [("u:alice", .explicitVal ["A"] 60)]

/-- C1: for every successful RepoPerms call, every candidate owned by this
provider whose remote ID is in the resolved explicit-access set is mapped to
Read = true in the returned permission map, for any remote state, so in
particular regardless of the visibility of the repository. -/
theorem repoPermsGrantsExplicit {σ : Type} (p : Provider σ) (remote : Remote)
    (wE wP : Bool) (st : σ) (tr : Trace) (acct : Account) (repos : List Repo)
    (perms : Perms) (stF : σ) (trF : Trace) (E : List String) (st1 : σ)
    (tr1 : Trace) (r : Repo)
    (hrun : RepoPerms p remote wE wP st tr acct repos = (.ok perms, stF, trF))
    (hexp : resolveExplicit p remote wE st tr acct = (.ok E, st1, tr1))
    (hmem : r ∈ repos) (hown : ownedBy p r = true)
    (hid : r.externalRepoSpec.id ∈ E) :
    mlookup perms r.repoName = some readTrue := by
  have hmine : r ∈ mineOf p repos := List.mem_filter.mpr ⟨hmem, hown⟩
  have h0 : mlookup (grantExplicitFold E (mineOf p repos)).1 r.repoName = some readTrue :=
    geFold_lookup_some E r (mineOf p repos) ([], []) hmine hid
  by_cases hb : 0 < (grantExplicitFold E (mineOf p repos)).2.length
  · rcases hpr : publicRepos p remote wP st1 tr1
        (grantExplicitFold E (mineOf p repos)).2 with ⟨pe, st2, tr2⟩
    cases pe with
    | error e =>
      rw [repoPerms_of_publicErr p remote wE wP st tr acct repos E st1 tr1 e st2 tr2
        hexp hb hpr] at hrun
      simp at hrun
    | ok pub =>
      rw [repoPerms_of_publicOk p remote wE wP st tr acct repos E st1 tr1 pub st2 tr2
        hexp hb hpr] at hrun
      simp only [Prod.mk.injEq, Except.ok.injEq] at hrun
      rw [← hrun.1]
      exact gpFold_lookup_pres pub r.repoName _ _ h0
  · rw [repoPerms_of_bucketEmpty p remote wE wP st tr acct repos E st1 tr1 hexp hb] at hrun
    simp only [Prod.mk.injEq, Except.ok.injEq] at hrun
    rw [← hrun.1]
    exact h0

theorem repoPermsGrantsExplicit_w :
    mlookup [("x", readTrue)] "x" = some readTrue :=
  repoPermsGrantsExplicit P0 remotePublic true true staleStore Trace.zero acctNoTok
    [repoX] [("x", readTrue)] staleStore ⟨0, 0, 1, 0, 0, 0⟩ ["X"] staleStore
    ⟨0, 0, 1, 0, 0, 0⟩ repoX rfl rfl (by decide) (by decide) (by decide)

/-- C2: for every successful RepoPerms call over candidates with distinct
local names, an owned candidate outside the resolved explicit-access set is
mapped to Read = true exactly when the visibility resolver maps its remote
ID to true, and otherwise has no entry at all in the returned map. -/
theorem repoPermsNonExplicitIffPublic {σ : Type} (p : Provider σ)
    (remote : Remote) (wE wP : Bool) (st : σ) (tr : Trace) (acct : Account)
    (repos : List Repo) (perms : Perms) (stF : σ) (trF : Trace)
    (E : List String) (st1 : σ) (tr1 : Trace) (pub : List (String × Bool))
    (st2 : σ) (tr2 : Trace) (r : Repo)
    (hrun : RepoPerms p remote wE wP st tr acct repos = (.ok perms, stF, trF))
    (hexp : resolveExplicit p remote wE st tr acct = (.ok E, st1, tr1))
    (hpr : publicRepos p remote wP st1 tr1 (grantExplicitFold E (mineOf p repos)).2 =
      (.ok pub, st2, tr2))
    (hnodup : ((mineOf p repos).map (fun r => r.repoName)).Nodup)
    (hmem : r ∈ repos) (hown : ownedBy p r = true)
    (hid : r.externalRepoSpec.id ∉ E) :
    mlookup perms r.repoName =
      if (mlookup pub r.externalRepoSpec.id).getD false = true then some readTrue
      else none := by
  have hmine : r ∈ mineOf p repos := List.mem_filter.mpr ⟨hmem, hown⟩
  have hbucketEq := geFold_bucket E (mineOf p repos) ([], [])
  have hbucket : r ∈ (grantExplicitFold E (mineOf p repos)).2 := by
    rw [grantExplicitFold, hbucketEq]
    simp only [List.nil_append, List.mem_filter]
    exact ⟨hmine, by simpa using hid⟩
  have hb : 0 < (grantExplicitFold E (mineOf p repos)).2.length :=
    List.length_pos_of_mem hbucket
  rw [repoPerms_of_publicOk p remote wE wP st tr acct repos E st1 tr1 pub st2 tr2
    hexp hb hpr] at hrun
  simp only [Prod.mk.injEq, Except.ok.injEq] at hrun
  rw [← hrun.1]
  have hinj := nodupMapInj (fun r => r.repoName) (mineOf p repos) hnodup
  by_cases hp : (mlookup pub r.externalRepoSpec.id).getD false = true
  · rw [if_pos hp]
    exact gpFold_lookup_some pub r _ _ hbucket hp
  · rw [if_neg hp]
    apply gpFold_lookup_none
    · intro q hq hqn
      have hqmine : q ∈ mineOf p repos := by
        rw [grantExplicitFold, hbucketEq] at hq
        simp only [List.nil_append, List.mem_filter] at hq
        exact hq.1
      have : q = r := hinj q hqmine r hmine hqn
      rw [this]
      exact hp
    · apply geFold_lookup_none
      · intro q hq hqn
        have : q = r := hinj q hq r hmine hqn
        rw [this]
        exact hid
      · rfl

theorem repoPermsNonExplicitIffPublic_w :
    mlookup [("a", readTrue), ("b", readTrue)] "c" =
      if (mlookup [("B", true), ("C", false)] "C").getD false = true then
        some readTrue
      else none :=
  repoPermsNonExplicitIffPublic P0 remoteBC true true expStore Trace.zero acctNoTok
    [repoA, repoB, repoC] [("a", readTrue), ("b", readTrue)]
    (RepoPerms P0 remoteBC true true expStore Trace.zero acctNoTok
      [repoA, repoB, repoC]).2.1
    (RepoPerms P0 remoteBC true true expStore Trace.zero acctNoTok
      [repoA, repoB, repoC]).2.2
    ["A"] expStore ⟨0, 0, 1, 0, 0, 0⟩ [("B", true), ("C", false)]
    (publicRepos P0 remoteBC true expStore ⟨0, 0, 1, 0, 0, 0⟩
      (grantExplicitFold ["A"] (mineOf P0 [repoA, repoB, repoC])).2).2.1
    (publicRepos P0 remoteBC true expStore ⟨0, 0, 1, 0, 0, 0⟩
      (grantExplicitFold ["A"] (mineOf P0 [repoA, repoB, repoC])).2).2.2
    repoC rfl rfl rfl (by decide) (by decide) (by decide) (by decide)

theorem u_key_ne_r_key (a b : String) : "u:" ++ a ≠ "r:" ++ b := by
  intro h
  have hd : ("u:" ++ a).data = ("r:" ++ b).data := congrArg String.data h
  rw [String.data_append, String.data_append] at hd
  have hu : ("u:" : String).data = ['u', ':'] := rfl
  have hr : ("r:" : String).data = ['r', ':'] := rfl
  rw [hu, hr] at hd
  simp only [List.cons_append, List.nil_append, List.cons.injEq] at hd
  exact absurd hd.1 (by decide)

/-- C3: starting from the cache state the first RepoPerms call leaves behind
and the unchanged remote state, the second call returns the identical
permission map and issues no ListViewerRepositories call, but it re-issues
one GetRepositoryByNodeID call for the non-explicit candidate even though
the first call cached that visibility entry within TTL: the visibility
cache is read back under a differently formatted key, so its entries are
never found. -/
theorem repoPermsSecondCallRefetchesVisibility :
    ((RepoPerms P0 remotePublic true true
        (RepoPerms P0 remotePublic true true [] Trace.zero acctAlice [repoB]).2.1
        Trace.zero acctAlice [repoB]).1 =
      (RepoPerms P0 remotePublic true true [] Trace.zero acctAlice [repoB]).1) ∧
    (RepoPerms P0 remotePublic true true [] Trace.zero acctAlice [repoB]).2.1 =
      [("u:alice", CacheVal.explicitVal [] 60),
       ("r:B", CacheVal.publicVal true 60)] ∧
    (RepoPerms P0 remotePublic true true
        (RepoPerms P0 remotePublic true true [] Trace.zero acctAlice [repoB]).2.1
        Trace.zero acctAlice [repoB]).2.2.listViewerCalls = 0 ∧
    (RepoPerms P0 remotePublic true true
        (RepoPerms P0 remotePublic true true [] Trace.zero acctAlice [repoB]).2.1
        Trace.zero acctAlice [repoB]).2.2.getRepoCalls = 1 :=
  ⟨rfl, rfl, rfl, rfl⟩

/-- C4: a candidate whose visibility entry is present in the cache under the
key r:RepoID (here M = 1 candidates, N = 1 fresh entries) still causes a
GetRepositoryByNodeID call, because the batch read uses a key built from
the formatted Repo value instead of the repository ID; the code issues
M = 1 calls where the claim requires M - N = 0. -/
theorem publicReposIgnoresFreshCacheEntry :
    mlookup [("r:A", CacheVal.publicVal true 60)]
        ("r:" ++ repoA.externalRepoSpec.id) = some (CacheVal.publicVal true 60) ∧
    (publicRepos P0 remotePublic true [("r:A", CacheVal.publicVal true 60)]
        Trace.zero [repoA]).2.2.getRepoCalls = 1 :=
  ⟨rfl, rfl⟩

/-- C5: setCachedPublicRepos writes the visibility entry of repository A
under the key r:A, but getCachedPublicRepos reads under the key built from
the whole formatted Repo value, which differs from r:A, so the entry just
written is not found by the subsequent read (the result is empty). -/
theorem visibilityCacheKeyMismatch :
    (setCachedPublicRepos P0 true [] Trace.zero [("A", true)]).1 =
      [("r:A", CacheVal.publicVal true 60)] ∧
    getArgsOf [repoA] = ["r:" ++ fmtRepo repoA] ∧
    ("r:" ++ fmtRepo repoA ≠ "r:" ++ repoA.externalRepoSpec.id) ∧
    (getCachedPublicRepos P0
        (setCachedPublicRepos P0 true [] Trace.zero [("A", true)]).1
        Trace.zero [repoA]).1 = .ok [] :=
  ⟨rfl, rfl, by decide, rfl⟩

/-- C6: an explicit-access cache entry whose stored TTL is zero, hence
already stale relative to any current time, is still returned as a trusted
cache hit by getCachedExplicitRepos (the TTL check is a TODO in the source)
and RepoPerms grants from it without any re-fetch: no
ListViewerRepositories call is made, even though the account has no token
with which a re-fetch could have succeeded. -/
theorem staleExplicitEntryTrusted :
    (getCachedExplicitRepos P0 staleStore Trace.zero acctNoTok).1 = some ["X"] ∧
    (RepoPerms P0 remotePublic true true staleStore Trace.zero acctNoTok [repoX]).1 =
      .ok [("x", readTrue)] ∧
    (RepoPerms P0 remotePublic true true staleStore Trace.zero acctNoTok
        [repoX]).2.2.listViewerCalls = 0 :=
  ⟨rfl, rfl, rfl⟩

theorem getCachedPublicRepos_error {σ : Type} (p : Provider σ) (st : σ)
    (tr : Trace) (B : List Repo) (e : Err)
    (h : (getCachedPublicRepos p st tr B).1 = .error e) : e = .countMismatch := by
  simp only [getCachedPublicRepos] at h
  by_cases h0 : B.length = 0
  · rw [if_pos h0] at h
    simp at h
  · rw [if_neg h0] at h
    by_cases hl : (p.cache.getMulti st (getArgsOf B)).length ≠ B.length
    · rw [if_pos hl] at h
      simp only [Except.error.injEq] at h
      exact h.symm
    · rw [if_neg hl] at h
      simp at h

theorem publicRepos_error_countMismatch {σ : Type} (p : Provider σ)
    (remote : Remote) (wP : Bool) (st : σ) (tr : Trace) (B : List Repo)
    (e : Err) (st2 : σ) (tr2 : Trace)
    (h : publicRepos p remote wP st tr B = (.error e, st2, tr2)) :
    e = .countMismatch := by
  rcases hgc : getCachedPublicRepos p st tr B with ⟨ge, tr3⟩
  cases ge with
  | error e2 =>
    have he2 : e2 = .countMismatch :=
      getCachedPublicRepos_error p st tr B e2 (by rw [hgc])
    have h2 : publicRepos p remote wP st tr B = (.error e2, st, tr3) := by
      simp [publicRepos, hgc]
    rw [h2] at h
    simp only [Prod.mk.injEq, Except.error.injEq] at h
    rw [← h.1]
    exact he2
  | ok cached =>
    by_cases hlen : B.length ≤ cached.length
    · have h2 : publicRepos p remote wP st tr B = (.ok cached, st, tr3) := by
        simp [publicRepos, hgc, hlen]
      rw [h2] at h
      simp at h
    · have h2 : (publicRepos p remote wP st tr B).1 =
          .ok ((fetchPublicRepos remote tr3
            (B.foldl (fun s r =>
              if mlookup cached r.externalRepoSpec.id = none then
                sinsert s r.externalRepoSpec.id
              else s) [])).1.foldl (fun m kv => mupsert m kv.1 kv.2) cached) := by
        simp [publicRepos, hgc, hlen]
      rw [h] at h2
      simp at h2

/-- C7: whenever the batched visibility read returns a number of slots that
differs from the number of candidates in the non-explicit bucket, the whole
RepoPerms resolution fails with the cache-inconsistency error and no
permission map is returned. -/
theorem repoPermsCountMismatchFails {σ : Type} (p : Provider σ)
    (remote : Remote) (wE wP : Bool) (st : σ) (tr : Trace) (acct : Account)
    (repos : List Repo) (E : List String) (st1 : σ) (tr1 : Trace)
    (hexp : resolveExplicit p remote wE st tr acct = (.ok E, st1, tr1))
    (hb : 0 < (grantExplicitFold E (mineOf p repos)).2.length)
    (hlen : (p.cache.getMulti st1
        (getArgsOf (grantExplicitFold E (mineOf p repos)).2)).length ≠
      (grantExplicitFold E (mineOf p repos)).2.length) :
    (RepoPerms p remote wE wP st tr acct repos).1 = .error .countMismatch := by
  have hgc : getCachedPublicRepos p st1 tr1 (grantExplicitFold E (mineOf p repos)).2 =
      (.error .countMismatch, tr1.incGetMulti) := by
    simp only [getCachedPublicRepos]
    have hne : ¬(grantExplicitFold E (mineOf p repos)).2.length = 0 := by omega
    rw [if_neg hne, if_pos hlen]
  have hpr : publicRepos p remote wP st1 tr1 (grantExplicitFold E (mineOf p repos)).2 =
      (.error .countMismatch, st1, tr1.incGetMulti) := by
    simp [publicRepos, hgc]
  rw [repoPerms_of_publicErr p remote wE wP st tr acct repos E st1 tr1 .countMismatch
    st1 tr1.incGetMulti hexp hb hpr]

/-- A cache implementation whose batch read misbehaves: it always returns
zero slots. -/
def badMultiCache : PCacheImpl (List (String × CacheVal)) :=
  ⟨fun st k => mlookup st k, fun st k v => mupsert st k v, fun _ _ => [],
    fun st _ => st, fun st _ => st⟩

def PBad : Provider (List (String × CacheVal)) := ⟨badMultiCache, 60, "github", ghHost⟩

theorem repoPermsCountMismatchFails_w :
    (RepoPerms PBad remotePublic true true expStore Trace.zero acctNoTok [repoB]).1 =
      .error .countMismatch :=
  repoPermsCountMismatchFails PBad remotePublic true true expStore Trace.zero
    acctNoTok [repoB] ["A"] expStore ⟨0, 0, 1, 0, 0, 0⟩ rfl (by decide) (by decide)

theorem getCachedExplicitRepos_miss {σ : Type} (p : Provider σ) (st : σ)
    (tr : Trace) (acct : Account)
    (hmiss : p.cache.get st ("u:" ++ acct.accountID) = none) :
    getCachedExplicitRepos p st tr acct = (none, tr.incGet) := by
  simp [getCachedExplicitRepos, hmiss]

theorem resolveExplicit_miss_badToken {σ : Type} (p : Provider σ)
    (remote : Remote) (wE : Bool) (st : σ) (tr : Trace) (acct : Account)
    (hmiss : p.cache.get st ("u:" ++ acct.accountID) = none)
    (htok : acct.token = none ∨ acct.token = some "") :
    resolveExplicit p remote wE st tr acct =
      (.error .missingCredential, st, tr.incGet) := by
  have hfetch : fetchUserExplicitRepos remote acct tr.incGet =
      (.error .missingCredential, tr.incGet) := by
    rcases htok with h | h <;> simp [fetchUserExplicitRepos, h]
  simp [resolveExplicit, getCachedExplicitRepos_miss p st tr acct hmiss, hfetch]

theorem resolveExplicit_miss_goodToken {σ : Type} (p : Provider σ)
    (remote : Remote) (wE : Bool) (st : σ) (tr : Trace) (acct : Account)
    (t : String)
    (hmiss : p.cache.get st ("u:" ++ acct.accountID) = none)
    (htok : acct.token = some t) (ht : ¬t = "") :
    (resolveExplicit p remote wE st tr acct).1 =
      .ok (githubRepoIDs (fetchPages remote 1 (remote.pages.length + 1)).1) := by
  simp [resolveExplicit, getCachedExplicitRepos_miss p st tr acct hmiss,
    fetchUserExplicitRepos, htok, ht]

/-- C8: on an explicit-access cache miss, RepoPerms fails with the
missing-credential error exactly when the account token is absent or empty,
and in that failing case the cache state is returned unchanged (nothing is
written) and no ListViewerRepositories call is made. -/
theorem repoPermsMissingCredential {σ : Type} (p : Provider σ)
    (remote : Remote) (wE wP : Bool) (st : σ) (tr : Trace) (acct : Account)
    (repos : List Repo)
    (hmiss : p.cache.get st ("u:" ++ acct.accountID) = none) :
    (((RepoPerms p remote wE wP st tr acct repos).1 = .error .missingCredential) ↔
      (acct.token = none ∨ acct.token = some "")) ∧
    ((acct.token = none ∨ acct.token = some "") →
      (RepoPerms p remote wE wP st tr acct repos).2.1 = st ∧
      (RepoPerms p remote wE wP st tr acct repos).2.2.listViewerCalls =
        tr.listViewerCalls) := by
  by_cases hbad : acct.token = none ∨ acct.token = some ""
  · have hre := resolveExplicit_miss_badToken p remote wE st tr acct hmiss hbad
    have hrp := repoPerms_of_explicitErr p remote wE wP st tr acct repos
      .missingCredential st tr.incGet hre
    rw [hrp]
    refine ⟨by simp [hbad], fun _ => ⟨rfl, by simp [Trace.incGet]⟩⟩
  · obtain ⟨t, htok, ht⟩ : ∃ t, acct.token = some t ∧ ¬t = "" := by
      cases hx : acct.token with
      | none => exact absurd (Or.inl hx) hbad
      | some t => exact ⟨t, rfl, fun he => hbad (Or.inr (he ▸ hx))⟩
    have hne : (RepoPerms p remote wE wP st tr acct repos).1 ≠
        .error .missingCredential := by
      have hre1 := resolveExplicit_miss_goodToken p remote wE st tr acct t hmiss htok ht
      rcases hre : resolveExplicit p remote wE st tr acct with ⟨e1, st1, tr1⟩
      rw [hre] at hre1
      simp only at hre1
      subst hre1
      by_cases hb : 0 < (grantExplicitFold
          (githubRepoIDs (fetchPages remote 1 (remote.pages.length + 1)).1)
          (mineOf p repos)).2.length
      · rcases hpr : publicRepos p remote wP st1 tr1 (grantExplicitFold
            (githubRepoIDs (fetchPages remote 1 (remote.pages.length + 1)).1)
            (mineOf p repos)).2 with ⟨pe, st2, tr2⟩
        cases pe with
        | error e =>
          have he : e = .countMismatch :=
            publicRepos_error_countMismatch p remote wP st1 tr1 _ e st2 tr2 hpr
          rw [repoPerms_of_publicErr p remote wE wP st tr acct repos _ st1 tr1 e
            st2 tr2 hre hb hpr]
          subst he
          simp
        | ok pub =>
          rw [repoPerms_of_publicOk p remote wE wP st tr acct repos _ st1 tr1 pub
            st2 tr2 hre hb hpr]
          simp
      · rw [repoPerms_of_bucketEmpty p remote wE wP st tr acct repos _ st1 tr1 hre hb]
        simp
    exact ⟨⟨fun h => absurd h hne, fun h => absurd h hbad⟩,
      fun h => absurd h hbad⟩

theorem repoPermsMissingCredential_w :
    (((RepoPerms P0 remotePublic true true [] Trace.zero acctNoTok [repoB]).1 =
        .error .missingCredential) ↔
      (acctNoTok.token = none ∨ acctNoTok.token = some "")) ∧
    ((acctNoTok.token = none ∨ acctNoTok.token = some "") →
      (RepoPerms P0 remotePublic true true [] Trace.zero acctNoTok [repoB]).2.1 =
        ([] : List (String × CacheVal)) ∧
      (RepoPerms P0 remotePublic true true [] Trace.zero acctNoTok
        [repoB]).2.2.listViewerCalls = Trace.zero.listViewerCalls) :=
  repoPermsMissingCredential P0 remotePublic true true [] Trace.zero acctNoTok
    [repoB] rfl

theorem resolveExplicit_trace {σ : Type} (p : Provider σ) (remote : Remote)
    (wE : Bool) (st : σ) (tr : Trace) (acct : Account) :
    (resolveExplicit p remote wE st tr acct).2.2.getRepoCalls = tr.getRepoCalls ∧
    (resolveExplicit p remote wE st tr acct).2.2.cacheGetMultis = tr.cacheGetMultis ∧
    (resolveExplicit p remote wE st tr acct).2.2.cacheSetMultis = tr.cacheSetMultis := by
  cases hg : p.cache.get st ("u:" ++ acct.accountID) with
  | some v =>
    simp [resolveExplicit, getCachedExplicitRepos, hg, Trace.incGet]
  | none =>
    cases htok : acct.token with
    | none =>
      simp [resolveExplicit, getCachedExplicitRepos, hg, fetchUserExplicitRepos,
        htok, Trace.incGet]
    | some t =>
      by_cases ht : t = ""
      · simp [resolveExplicit, getCachedExplicitRepos, hg, fetchUserExplicitRepos,
          htok, ht, Trace.incGet]
      · cases wE with
        | false =>
          simp [resolveExplicit, getCachedExplicitRepos, hg,
            fetchUserExplicitRepos, htok, ht, setCachedExplicitRepos,
            Trace.incGet, Trace.addListViewer]
        | true =>
          simp [resolveExplicit, getCachedExplicitRepos, hg,
            fetchUserExplicitRepos, htok, ht, setCachedExplicitRepos,
            Trace.incGet, Trace.addListViewer, Trace.incSet]

/-- C9, counterexample to the claim as stated: with an empty candidate set
and a cold cache, RepoPerms still performs one explicit-access cache read,
one ListViewerRepositories call and one cache write, even though it does
return an empty permission map. -/
theorem repoPermsEmptyCandidatesTouchesCacheAndNetwork :
    (RepoPerms P0 remotePublic true true [] Trace.zero acctAlice []).2.2.cacheGets = 1 ∧
    (RepoPerms P0 remotePublic true true [] Trace.zero acctAlice
      []).2.2.listViewerCalls = 1 ∧
    (RepoPerms P0 remotePublic true true [] Trace.zero acctAlice []).2.2.cacheSets = 1 ∧
    (RepoPerms P0 remotePublic true true [] Trace.zero acctAlice []).1 = .ok [] :=
  ⟨rfl, rfl, rfl, rfl⟩

/-- C9 amended: a successful RepoPerms call with an empty candidate set
returns the empty permission map and performs no GetRepositoryByNodeID
calls and no visibility-cache batch reads or writes; it may still read the
explicit-access cache and, on a miss, fetch the explicit set from the
remote host and cache it. -/
theorem repoPermsEmptyCandidates {σ : Type} (p : Provider σ) (remote : Remote)
    (wE wP : Bool) (st : σ) (tr : Trace) (acct : Account) (perms : Perms)
    (stF : σ) (trF : Trace)
    (hrun : RepoPerms p remote wE wP st tr acct [] = (.ok perms, stF, trF)) :
    perms = [] ∧ trF.getRepoCalls = tr.getRepoCalls ∧
    trF.cacheGetMultis = tr.cacheGetMultis ∧
    trF.cacheSetMultis = tr.cacheSetMultis := by
  have htr := resolveExplicit_trace p remote wE st tr acct
  rcases hre : resolveExplicit p remote wE st tr acct with ⟨e1, st1, tr1⟩
  rw [hre] at htr
  simp only at htr
  cases e1 with
  | error e =>
    rw [repoPerms_of_explicitErr p remote wE wP st tr acct [] e st1 tr1 hre] at hrun
    simp at hrun
  | ok E =>
    have hb : ¬0 < (grantExplicitFold E (mineOf p [])).2.length := by
      simp [grantExplicitFold, mineOf]
    rw [repoPerms_of_bucketEmpty p remote wE wP st tr acct [] E st1 tr1 hre hb] at hrun
    have hperm : (grantExplicitFold E (mineOf p [])).1 = [] := rfl
    rw [hperm] at hrun
    simp only [Prod.mk.injEq, Except.ok.injEq] at hrun
    obtain ⟨h1, _, h3⟩ := hrun
    subst h3
    exact ⟨h1.symm, htr.1, htr.2.1, htr.2.2⟩

theorem repoPermsEmptyCandidates_w :
    ([] : Perms) = [] ∧
    (⟨1, 0, 1, 1, 0, 0⟩ : Trace).getRepoCalls = Trace.zero.getRepoCalls ∧
    (⟨1, 0, 1, 1, 0, 0⟩ : Trace).cacheGetMultis = Trace.zero.cacheGetMultis ∧
    (⟨1, 0, 1, 1, 0, 0⟩ : Trace).cacheSetMultis = Trace.zero.cacheSetMultis :=
  repoPermsEmptyCandidates P0 remotePublic true true [] Trace.zero acctAlice []
    [("u:alice", CacheVal.explicitVal [] 60)] ⟨1, 0, 1, 1, 0, 0⟩ rfl

theorem mapCongrMem {α β : Type} (f g : α → β) :
    ∀ (l : List α), (∀ a ∈ l, f a = g a) → l.map f = l.map g := by
  intro l
  induction l with
  | nil => intro _; rfl
  | cons a rest ih =>
    intro h
    simp only [List.map_cons]
    rw [h a (List.mem_cons_self a rest), ih (fun b hb => h b (List.mem_cons_of_mem a hb))]

theorem foldlPairFst (step : List (String × Bool) → String → List (String × Bool))
    (tstep : Trace → Trace) :
    ∀ (ids : List String) (m : List (String × Bool)) (tr tr' : Trace),
      (ids.foldl (fun acc id => (step acc.1 id, tstep acc.2)) (m, tr)).1 =
      (ids.foldl (fun acc id => (step acc.1 id, tstep acc.2)) (m, tr')).1 := by
  intro ids
  induction ids with
  | nil => intro m tr tr'; rfl
  | cons i rest ih =>
    intro m tr tr'
    simp only [List.foldl_cons]
    exact ih _ _ _

theorem fetchPublicRepos_fst_tr (remote : Remote) (ids : List String)
    (tr tr' : Trace) :
    (fetchPublicRepos remote tr ids).1 = (fetchPublicRepos remote tr' ids).1 :=
  foldlPairFst (fun m id => mupsert m id (!(remote.repoByNodeID id).isPrivate))
    Trace.incGetRepo ids [] tr tr'

theorem getCachedPublicRepos_fst_tr {σ : Type} (p : Provider σ) (st : σ)
    (tr tr' : Trace) (B : List Repo) :
    (getCachedPublicRepos p st tr B).1 = (getCachedPublicRepos p st tr' B).1 := by
  simp only [getCachedPublicRepos]
  by_cases h0 : B.length = 0
  · rw [if_pos h0, if_pos h0]
  · rw [if_neg h0, if_neg h0]
    by_cases hl : (p.cache.getMulti st (getArgsOf B)).length ≠ B.length
    · rw [if_pos hl, if_pos hl]
    · rw [if_neg hl, if_neg hl]

theorem getCachedPublicRepos_fst_congr (ttl : Nat) (stype sid : String)
    (stA stB : List (String × CacheVal)) (tr tr' : Trace) (B : List Repo)
    (hst : ∀ r ∈ B, mlookup stA ("r:" ++ fmtRepo r) = mlookup stB ("r:" ++ fmtRepo r)) :
    (getCachedPublicRepos (listProvider ttl stype sid) stA tr B).1 =
      (getCachedPublicRepos (listProvider ttl stype sid) stB tr' B).1 := by
  have hgm : (listProvider ttl stype sid).cache.getMulti stA (getArgsOf B) =
      (listProvider ttl stype sid).cache.getMulti stB (getArgsOf B) := by
    show (getArgsOf B).map (mlookup stA) = (getArgsOf B).map (mlookup stB)
    rw [getArgsOf, List.map_map, List.map_map]
    exact mapCongrMem _ _ B (fun r hr => hst r hr)
  have h1 : (getCachedPublicRepos (listProvider ttl stype sid) stA tr B).1 =
      (getCachedPublicRepos (listProvider ttl stype sid) stB tr B).1 := by
    simp only [getCachedPublicRepos, hgm]
  exact h1.trans (getCachedPublicRepos_fst_tr (listProvider ttl stype sid) stB tr tr' B)

theorem publicRepos_fst_congr (ttl : Nat) (stype sid : String) (remote : Remote)
    (w w' : Bool) (stA stB : List (String × CacheVal)) (trA trB : Trace)
    (B : List Repo)
    (hst : ∀ r ∈ B, mlookup stA ("r:" ++ fmtRepo r) = mlookup stB ("r:" ++ fmtRepo r)) :
    (publicRepos (listProvider ttl stype sid) remote w stA trA B).1 =
      (publicRepos (listProvider ttl stype sid) remote w' stB trB B).1 := by
  have hge := getCachedPublicRepos_fst_congr ttl stype sid stA stB trA trB B hst
  rcases hgA : getCachedPublicRepos (listProvider ttl stype sid) stA trA B with ⟨geA, trA2⟩
  rcases hgB : getCachedPublicRepos (listProvider ttl stype sid) stB trB B with ⟨geB, trB2⟩
  rw [hgA, hgB] at hge
  simp only at hge
  subst hge
  cases geA with
  | error e => simp [publicRepos, hgA, hgB]
  | ok cached =>
    by_cases hlen : B.length ≤ cached.length
    · simp [publicRepos, hgA, hgB, hlen]
    · have hf := fetchPublicRepos_fst_tr remote
        (B.foldl (fun s r =>
          if mlookup cached r.externalRepoSpec.id = none then
            sinsert s r.externalRepoSpec.id
          else s) []) trA2 trB2
      simp [publicRepos, hgA, hgB, hlen, hf]

theorem resolveExplicit_writeFlag (ttl : Nat) (stype sid : String)
    (remote : Remote) (wE : Bool) (st : List (String × CacheVal)) (tr : Trace)
    (acct : Account) :
    (resolveExplicit (listProvider ttl stype sid) remote wE st tr acct).1 =
      (resolveExplicit (listProvider ttl stype sid) remote true st tr acct).1 ∧
    ∀ k : String, k ≠ "u:" ++ acct.accountID →
      mlookup (resolveExplicit (listProvider ttl stype sid) remote wE st tr acct).2.1 k =
      mlookup (resolveExplicit (listProvider ttl stype sid) remote true st tr acct).2.1 k := by
  cases hg : mlookup st ("u:" ++ acct.accountID) with
  | some v =>
    constructor <;>
      simp [resolveExplicit, getCachedExplicitRepos, listProvider, listCache, hg]
  | none =>
    rcases hf : fetchUserExplicitRepos remote acct tr.incGet with ⟨fe, tr2⟩
    cases fe with
    | error e =>
      constructor <;>
        simp [resolveExplicit, getCachedExplicitRepos, listProvider, listCache, hg, hf]
    | ok ghs =>
      constructor
      · cases wE <;>
          simp [resolveExplicit, getCachedExplicitRepos, listProvider, listCache,
            hg, hf, setCachedExplicitRepos]
      · intro k hk
        cases wE with
        | false =>
          simp [resolveExplicit, getCachedExplicitRepos, listProvider, listCache,
            hg, hf, setCachedExplicitRepos, mlookup_mupsert_ne _ _ _ _ hk]
        | true =>
          simp [resolveExplicit, getCachedExplicitRepos, listProvider, listCache,
            hg, hf, setCachedExplicitRepos]

/-- C10: over the honest cache, the permission-map result of RepoPerms is
the same whether or not the two cache write-backs succeed: the error
results of setCachedExplicitRepos and setCachedPublicRepos are discarded at
their call sites, a failed write only leaves the store unwritten, and the
explicit-access write (under a u: key) is never read back by the
visibility phase (which reads only r: keys), so neither flag can change
the returned value. -/
theorem repoPermsIgnoresCacheWriteFailures (ttl : Nat) (stype sid : String)
    (remote : Remote) (wE wP : Bool) (st : List (String × CacheVal))
    (tr : Trace) (acct : Account) (repos : List Repo) :
    (RepoPerms (listProvider ttl stype sid) remote wE wP st tr acct repos).1 =
      (RepoPerms (listProvider ttl stype sid) remote true true st tr acct repos).1 := by
  obtain ⟨h1, h2⟩ := resolveExplicit_writeFlag ttl stype sid remote wE st tr acct
  rcases hA : resolveExplicit (listProvider ttl stype sid) remote wE st tr acct
    with ⟨eA, stA, trA⟩
  rcases hB : resolveExplicit (listProvider ttl stype sid) remote true st tr acct
    with ⟨eB, stB, trB⟩
  rw [hA, hB] at h1 h2
  simp only at h1 h2
  subst h1
  cases eA with
  | error e =>
    rw [repoPerms_of_explicitErr (listProvider ttl stype sid) remote wE wP st tr
      acct repos e stA trA hA,
      repoPerms_of_explicitErr (listProvider ttl stype sid) remote true true st tr
      acct repos e stB trB hB]
  | ok E =>
    by_cases hb : 0 < (grantExplicitFold E (mineOf (listProvider ttl stype sid) repos)).2.length
    · have hcong : (publicRepos (listProvider ttl stype sid) remote wP stA trA
          (grantExplicitFold E (mineOf (listProvider ttl stype sid) repos)).2).1 =
          (publicRepos (listProvider ttl stype sid) remote true stB trB
          (grantExplicitFold E (mineOf (listProvider ttl stype sid) repos)).2).1 :=
        publicRepos_fst_congr ttl stype sid remote wP true stA stB trA trB _
          (fun r _ => h2 ("r:" ++ fmtRepo r)
            (fun hk => u_key_ne_r_key acct.accountID (fmtRepo r) hk.symm))
      rcases hpA : publicRepos (listProvider ttl stype sid) remote wP stA trA
        (grantExplicitFold E (mineOf (listProvider ttl stype sid) repos)).2
        with ⟨peA, stA2, trA2⟩
      rcases hpB : publicRepos (listProvider ttl stype sid) remote true stB trB
        (grantExplicitFold E (mineOf (listProvider ttl stype sid) repos)).2
        with ⟨peB, stB2, trB2⟩
      rw [hpA, hpB] at hcong
      simp only at hcong
      subst hcong
      cases peA with
      | error e =>
        rw [repoPerms_of_publicErr (listProvider ttl stype sid) remote wE wP st tr
          acct repos E stA trA e stA2 trA2 hA hb hpA,
          repoPerms_of_publicErr (listProvider ttl stype sid) remote true true st tr
          acct repos E stB trB e stB2 trB2 hB hb hpB]
      | ok pub =>
        rw [repoPerms_of_publicOk (listProvider ttl stype sid) remote wE wP st tr
          acct repos E stA trA pub stA2 trA2 hA hb hpA,
          repoPerms_of_publicOk (listProvider ttl stype sid) remote true true st tr
          acct repos E stB trB pub stB2 trB2 hB hb hpB]
    · rw [repoPerms_of_bucketEmpty (listProvider ttl stype sid) remote wE wP st tr
        acct repos E stA trA hA hb,
        repoPerms_of_bucketEmpty (listProvider ttl stype sid) remote true true st tr
        acct repos E stB trB hB hb]

end GithubAuthz
